import Mathlib

/-!
Verification of the musictools audio streaming core against its
natural-language specification.

The development shallowly embeds the Go sources:
* `pkg/audioframe/audioframe.go` — the frame codec (`Marshal` / `Unmarshal`);
* `pkg/ringbuffer` — the lock-free SPSC byte ring;
* `pkg/audioframeringbuffer` — the SPSC ring of audio frames
  (payload aliasing is made explicit via an id-indexed heap of byte lists);
* the `FilePlayer` lifecycle code listed in `THREAD_SAFETY_ANALYSIS.md`
  (termination check of the audio callback, `Stop`, `GetPlaybackStatus`).

Machine integers are modelled as `Nat` with explicit `% 2 ^ w` where the Go
code truncates; `[]byte` becomes `List Nat`; fallible operations return a
result paired with an `Option` error.
-/

namespace Musictools

/-! ## Little-endian encoding helpers (binary.LittleEndian) -/

/-- The four little-endian bytes `binary.LittleEndian.PutUint32` writes for `n`. -/
def u32leBytes (n : Nat) : List Nat :=
  [n % 2 ^ 8, n / 2 ^ 8 % 2 ^ 8, n / 2 ^ 16 % 2 ^ 8, n / 2 ^ 24 % 2 ^ 8]

/-- The two little-endian bytes `binary.LittleEndian.PutUint16` writes for `n`. -/
def u16leBytes (n : Nat) : List Nat :=
  [n % 2 ^ 8, n / 2 ^ 8 % 2 ^ 8]

/-- `binary.LittleEndian.Uint32`: the value of four little-endian bytes. -/
def leU32 (b0 b1 b2 b3 : Nat) : Nat :=
  b0 + 2 ^ 8 * b1 + 2 ^ 16 * b2 + 2 ^ 24 * b3

/-- `binary.LittleEndian.Uint16`: the value of two little-endian bytes. -/
def leU16 (b0 b1 : Nat) : Nat :=
  b0 + 2 ^ 8 * b1

/-! ## Frame codec (pkg/audioframe/audioframe.go) -/

/-- `FrameFormat` from audioframe.go. `SampleRate` is a `uint32`,
`Channels` and `BitsPerSample` are `uint8`; here all are `Nat` and
the width bounds appear as hypotheses of the theorems. -/
structure FrameFormat where
  SampleRate : Nat
  Channels : Nat
  BitsPerSample : Nat
  deriving Repr, DecidableEq, Inhabited

/-- `AudioFrame` from audioframe.go. `SamplesCount` is a `uint16`,
`Audio` a byte slice. -/
structure AudioFrame where
  Format : FrameFormat
  SamplesCount : Nat
  Audio : List Nat
  deriving Repr, DecidableEq, Inhabited

/-- `AudioFrame.Marshal`: 12-byte little-endian header
(SampleRate u32, Channels u8, BitsPerSample u8, SamplesCount u16,
audio length u32) followed by the payload. `uint32(len(af.Audio))`
truncates to 32 bits, which `u32leBytes` performs implicitly;
`Channels`/`BitsPerSample` are stored as single bytes. -/
def AudioFrame.Marshal (af : AudioFrame) : List Nat :=
  u32leBytes af.Format.SampleRate ++
    [af.Format.Channels % 2 ^ 8, af.Format.BitsPerSample % 2 ^ 8] ++
    u16leBytes af.SamplesCount ++
    u32leBytes af.Audio.length ++
    af.Audio

/-- The two failure kinds of `AudioFrame.Unmarshal`: the "buffer too small"
error for inputs shorter than the 12-byte header, and the "buffer too small
for audio data" error for inputs shorter than 12 + audio length. -/
inductive UnmarshalError where
  | truncatedHeader
  | truncatedPayload
  deriving Repr, DecidableEq

/-- `AudioFrame.Unmarshal`: the Go method mutates its receiver in place;
here it takes the receiver and returns the updated receiver together with
the optional error. Header fields are assigned before the payload-length
check, exactly as in the source. -/
def AudioFrame.Unmarshal (af : AudioFrame) (data : List Nat) :
    AudioFrame × Option UnmarshalError :=
  if data.length < 12 then
    (af, some .truncatedHeader)
  else
    let af :=
      { af with
        Format :=
          { SampleRate := leU32 (data.getD 0 0) (data.getD 1 0) (data.getD 2 0) (data.getD 3 0)
            Channels := data.getD 4 0
            BitsPerSample := data.getD 5 0 }
        SamplesCount := leU16 (data.getD 6 0) (data.getD 7 0) }
    let audioLen := leU32 (data.getD 8 0) (data.getD 9 0) (data.getD 10 0) (data.getD 11 0)
    if data.length < 12 + audioLen then
      (af, some .truncatedPayload)
    else
      ({ af with Audio := (data.drop 12).take audioLen }, none)

/-! ## Ring errors (pkg/types) -/

/-- `ErrInsufficientSpace` / `ErrInsufficientData` from pkg/types,
re-exported by both ring packages. -/
inductive RingError where
  | insufficientSpace
  | insufficientData
  deriving Repr, DecidableEq

/-- `nextPowerOf2` from pkg/ringbuffer: the uint64 bit-smearing trick.
On `Nat` it agrees with the Go function for all inputs below `2 ^ 64`. -/
def nextPowerOf2 (n : Nat) : Nat :=
  if n = 0 then 1
  else
    let m := n - 1
    let m := m ||| (m >>> 1)
    let m := m ||| (m >>> 2)
    let m := m ||| (m >>> 4)
    let m := m ||| (m >>> 8)
    let m := m ||| (m >>> 16)
    let m := m ||| (m >>> 32)
    m + 1

/-! ## Byte ring (pkg/ringbuffer/ringbuffer.go) -/

/-- `RingBuffer`: the SPSC byte ring. The Go struct also stores
`mask = size - 1`; `New` is the only constructor and nothing ever changes
`size` or `mask`, so `mask` is kept as the derived function
`RingBuffer.mask` below. The atomic `writePos` / `readPos` counters are
plain `Nat` (they are stated in the source to be monotone 64-bit counters
that never wrap in practice). -/
structure RingBuffer where
  buffer : List Nat
  size : Nat
  writePos : Nat
  readPos : Nat
  deriving Repr, DecidableEq

/-- The `mask` field (`size - 1`) set by `New`. -/
def RingBuffer.mask (rb : RingBuffer) : Nat := rb.size - 1

/-- `New`: rounds the size up to the next power of two and allocates
zeroed storage. -/
def RingBuffer.New (size : Nat) : RingBuffer :=
  let sz := nextPowerOf2 size
  { buffer := List.replicate sz 0, size := sz, writePos := 0, readPos := 0 }

/-- `AvailableWrite`: `size - (writePos - readPos)`. -/
def RingBuffer.AvailableWrite (rb : RingBuffer) : Nat :=
  rb.size - (rb.writePos - rb.readPos)

/-- `AvailableRead`: `writePos - readPos`. -/
def RingBuffer.AvailableRead (rb : RingBuffer) : Nat :=
  rb.writePos - rb.readPos

/-- Go's `copy(dst[start:start+len(src)], src)` on a slice of `dst`:
overwrite `dst` from index `start` with the bytes of `src`. All call
sites below have `start + src.length ≤ dst.length`, matching the Go
slices whose lengths agree exactly. -/
def copyInto (dst : List Nat) (start : Nat) (src : List Nat) : List Nat :=
  dst.take start ++ src ++ dst.drop (start + src.length)

/-- `RingBuffer.Write`: all-or-nothing producer write. Returns the updated
ring, the byte count written, and the optional error. -/
def RingBuffer.Write (rb : RingBuffer) (data : List Nat) :
    RingBuffer × Nat × Option RingError :=
  if data.length = 0 then (rb, 0, none)
  else if rb.AvailableWrite < data.length then (rb, 0, some .insufficientSpace)
  else
    let start := rb.writePos &&& rb.mask
    let endPos := (rb.writePos + data.length) &&& rb.mask
    let buffer :=
      if start < endPos then
        -- single contiguous write
        copyInto rb.buffer start data
      else
        -- write wraps around the buffer
        let firstChunk := rb.size - start
        copyInto (copyInto rb.buffer start (data.take firstChunk)) 0 (data.drop firstChunk)
    ({ rb with buffer := buffer, writePos := rb.writePos + data.length },
      data.length, none)

/-- `RingBuffer.Read`: consumer read of up to `outLen` bytes (the length of
the caller's `data` slice). Returns the updated ring, the bytes placed in
`data[0:toRead]`, the count, and the optional error. -/
def RingBuffer.Read (rb : RingBuffer) (outLen : Nat) :
    RingBuffer × List Nat × Nat × Option RingError :=
  if outLen = 0 then (rb, [], 0, none)
  else if rb.AvailableRead = 0 then (rb, [], 0, some .insufficientData)
  else
    let toRead := min outLen rb.AvailableRead
    let start := rb.readPos &&& rb.mask
    let endPos := (rb.readPos + toRead) &&& rb.mask
    let out :=
      if start < endPos then
        -- single contiguous read: buffer[start:end]
        (rb.buffer.drop start).take (endPos - start)
      else
        -- read wraps around: buffer[start:] then buffer[:end]
        rb.buffer.drop start ++ rb.buffer.take endPos
    ({ rb with readPos := rb.readPos + toRead }, out, toRead, none)

/-- `RingBuffer.Consume`: advance the read position by `n`. -/
def RingBuffer.Consume (rb : RingBuffer) (n : Nat) :
    RingBuffer × Option RingError :=
  if n = 0 then (rb, none)
  else if rb.AvailableRead < n then (rb, some .insufficientData)
  else ({ rb with readPos := rb.readPos + n }, none)

/-- `RingBuffer.Reset`: set both positions to zero. -/
def RingBuffer.Reset (rb : RingBuffer) : RingBuffer :=
  { rb with readPos := 0, writePos := 0 }

/-- Well-formedness of a ring state as established by `New` and preserved
by every operation: the storage length equals `size`, `size` is the power
of two chosen at construction, and the position counters satisfy the
occupancy bounds. -/
def RingBuffer.WF (rb : RingBuffer) : Prop :=
  rb.buffer.length = rb.size ∧ (∃ k, rb.size = 2 ^ k) ∧
    rb.readPos ≤ rb.writePos ∧ rb.writePos - rb.readPos ≤ rb.size

/-! ## Frame ring (pkg/audioframeringbuffer/audioframeringbuffer.go)

Go's `AudioFrame.Audio` is a slice header aliasing a backing byte array.
To state the deep-copy-isolation property the aliasing is made explicit:
a `Heap` is the list of all allocated byte arrays, and a frame's `Audio`
field is the index (`audioId`) of its backing array in the heap. Go's
`make([]byte, n)` + `copy` on write becomes appending a fresh cell to the
heap; mutating a caller-owned buffer becomes `Heap.set` at its id. -/

/-- All allocated payload byte arrays, indexed by allocation order. -/
abbrev Heap := List (List Nat)

/-- An `AudioFrame` whose payload slice is represented by the id of its
backing array in the heap. -/
structure AudioFrameRef where
  Format : FrameFormat
  SamplesCount : Nat
  audioId : Nat
  deriving Repr, DecidableEq, Inhabited

/-- The payload bytes a frame's `Audio` slice denotes under a heap. -/
def Heap.deref (heap : Heap) (f : AudioFrameRef) : List Nat :=
  heap.getD f.audioId []

/-- `AudioFrameRingBuffer`: the SPSC ring of frames. As for the byte ring,
the stored `mask = size - 1` is kept as a derived function. -/
structure AudioFrameRingBuffer where
  buffer : List AudioFrameRef
  size : Nat
  writePos : Nat
  readPos : Nat
  deriving Repr, DecidableEq

/-- The `mask` field (`size - 1`) set by `New`. -/
def AudioFrameRingBuffer.mask (rb : AudioFrameRingBuffer) : Nat := rb.size - 1

/-- `New`: capacity rounded up to the next power of two; slots start as
zero-value frames (nil `Audio`, modelled as id 0 of an empty heap cell —
the id is irrelevant, slots are always overwritten before being read in
well-formed use). -/
def AudioFrameRingBuffer.New (capacity : Nat) : AudioFrameRingBuffer :=
  let sz := nextPowerOf2 capacity
  { buffer := List.replicate sz default, size := sz, writePos := 0, readPos := 0 }

/-- `AvailableWrite` for the frame ring. -/
def AudioFrameRingBuffer.AvailableWrite (rb : AudioFrameRingBuffer) : Nat :=
  rb.size - (rb.writePos - rb.readPos)

/-- `AvailableRead` for the frame ring. -/
def AudioFrameRingBuffer.AvailableRead (rb : AudioFrameRingBuffer) : Nat :=
  rb.writePos - rb.readPos

/-- The body of `AudioFrameRingBuffer.Write`'s copy loop: for each frame,
store the struct by value at slot `(writePos + i) & mask` and replace its
`Audio` with a freshly allocated copy of the caller's payload
(`make([]byte, ...)` + `copy` = a new heap cell holding the dereferenced
bytes). -/
def writeFramesLoop (buffer : List AudioFrameRef) (heap : Heap)
    (writePos mask : Nat) : List AudioFrameRef → List AudioFrameRef × Heap
  | [] => (buffer, heap)
  | f :: rest =>
      let pos := writePos &&& mask
      let newId := heap.length
      let heap' := heap ++ [heap.getD f.audioId []]
      let buffer' := buffer.set pos { f with audioId := newId }
      writeFramesLoop buffer' heap' (writePos + 1) mask rest

/-- `AudioFrameRingBuffer.Write`: partial producer write of whole frames.
Returns the updated ring, the updated heap, the frame count written, and
the optional error. -/
def AudioFrameRingBuffer.Write (rb : AudioFrameRingBuffer) (heap : Heap)
    (frames : List AudioFrameRef) :
    AudioFrameRingBuffer × Heap × Nat × Option RingError :=
  if frames.length = 0 then (rb, heap, 0, none)
  else
    let toWrite := min frames.length rb.AvailableWrite
    if toWrite = 0 then (rb, heap, 0, some .insufficientSpace)
    else
      let res := writeFramesLoop rb.buffer heap rb.writePos rb.mask (frames.take toWrite)
      ({ rb with buffer := res.1, writePos := rb.writePos + toWrite },
        res.2, toWrite, none)

/-- The body of `AudioFrameRingBuffer.Read`'s copy loop: `result[i] =
rb.buffer[(readPos + i) & mask]` — a struct copy whose `Audio` field
still aliases the ring-allocated backing array (same id). -/
def readFramesLoop (buffer : List AudioFrameRef) (readPos mask : Nat) :
    Nat → List AudioFrameRef
  | 0 => []
  | Nat.succ k =>
      buffer.getD (readPos &&& mask) default :: readFramesLoop buffer (readPos + 1) mask k

/-- `AudioFrameRingBuffer.Read`: consumer read of up to `numFrames`
frames. Returns the updated ring, the frames read, and the optional
error. (`numFrames` is a non-negative `int` in Go; the `numFrames <= 0`
early return becomes the zero case.) -/
def AudioFrameRingBuffer.Read (rb : AudioFrameRingBuffer) (numFrames : Nat) :
    AudioFrameRingBuffer × List AudioFrameRef × Option RingError :=
  if numFrames = 0 then (rb, [], none)
  else if rb.AvailableRead = 0 then (rb, [], some .insufficientData)
  else
    let toRead := min numFrames rb.AvailableRead
    ({ rb with readPos := rb.readPos + toRead },
      readFramesLoop rb.buffer rb.readPos rb.mask toRead, none)

/-- `AudioFrameRingBuffer.Reset`. -/
def AudioFrameRingBuffer.Reset (rb : AudioFrameRingBuffer) : AudioFrameRingBuffer :=
  { rb with readPos := 0, writePos := 0 }

/-- Well-formedness of a frame-ring state, as for the byte ring. -/
def AudioFrameRingBuffer.WF (rb : AudioFrameRingBuffer) : Prop :=
  rb.buffer.length = rb.size ∧ (∃ k, rb.size = 2 ^ k) ∧
    rb.readPos ≤ rb.writePos ∧ rb.writePos - rb.readPos ≤ rb.size

/-! ## Ring operation traces (for the reachable-state invariant) -/

/-- The byte-ring operations a client may perform. -/
inductive ByteRingOp where
  | write (data : List Nat)
  | read (outLen : Nat)
  | consume (n : Nat)
  | reset
  deriving DecidableEq

/-- Applying a byte-ring operation to a state. -/
def ByteRingOp.apply (op : ByteRingOp) (rb : RingBuffer) : RingBuffer :=
  match op with
  | .write data => (rb.Write data).1
  | .read outLen => (rb.Read outLen).1
  | .consume n => (rb.Consume n).1
  | .reset => rb.Reset

/-- Byte-ring states reachable from a fresh ring by any operation sequence. -/
inductive ByteRingReachable : RingBuffer → Prop where
  | fresh (size : Nat) : ByteRingReachable (RingBuffer.New size)
  | step (rb : RingBuffer) (op : ByteRingOp) :
      ByteRingReachable rb → ByteRingReachable (op.apply rb)

/-- The frame-ring operations a client may perform (`Write` also takes the
heap the caller's frames live in). -/
inductive FrameRingOp where
  | write (heap : Heap) (frames : List AudioFrameRef)
  | read (numFrames : Nat)
  | reset
  deriving DecidableEq

/-- Applying a frame-ring operation to a state. -/
def FrameRingOp.apply (op : FrameRingOp) (rb : AudioFrameRingBuffer) :
    AudioFrameRingBuffer :=
  match op with
  | .write heap frames => (rb.Write heap frames).1
  | .read numFrames => (rb.Read numFrames).1
  | .reset => rb.Reset

/-- Frame-ring states reachable from a fresh ring. -/
inductive FrameRingReachable : AudioFrameRingBuffer → Prop where
  | fresh (capacity : Nat) : FrameRingReachable (AudioFrameRingBuffer.New capacity)
  | step (rb : AudioFrameRingBuffer) (op : FrameRingOp) :
      FrameRingReachable rb → FrameRingReachable (op.apply rb)

/-! ## FilePlayer: audio-callback termination check
(cmd/fileplayer.go as listed in THREAD_SAFETY_ANALYSIS.md) -/

/-- The per-session completion state touched by the callback's termination
branch: the `playbackComplete` atomic latch and whether
`playbackCompleteChan` has been closed. `PlayFile` resets both
(`playbackComplete.Store(false)`; a fresh open channel). -/
structure CompletionState where
  playbackComplete : Bool
  chanClosed : Bool
  deriving Repr, DecidableEq

/-- The values one callback invocation loads for the termination check:
`producerDone.Load()`, `ringbuf.AvailableRead()`, and whether
`currentFrame.Load()` is nil. -/
structure CallbackObs where
  producerDone : Bool
  availRead : Nat
  currentFrameNil : Bool
  deriving Repr, DecidableEq

/-- The callback's termination guard:
`producerDone && availableRead == 0 && currentFrame == nil`. -/
def termGuard (o : CallbackObs) : Bool :=
  o.producerDone && o.availRead == 0 && o.currentFrameNil

/-- The termination branch of `audioCallback`: when the guard holds, store
`playbackComplete := true`, close the channel unless the `select` sees it
already closed (`fired` records an actual close), and return `Complete`
(`returnedComplete = true`). Otherwise the branch is skipped. -/
def callbackTermStep (s : CompletionState) (o : CallbackObs) :
    CompletionState × Bool × Bool :=
  if termGuard o then
    ({ playbackComplete := true, chanClosed := true }, !s.chanClosed, true)
  else
    (s, false, false)

/-- Run a session's sequence of callback invocations from a completion
state, counting how many times the completion signal is actually fired
(the channel transitions from open to closed). -/
def runCallbacks (s : CompletionState) : List CallbackObs → CompletionState × Nat
  | [] => (s, 0)
  | o :: rest =>
      let step := callbackTermStep s o
      let res := runCallbacks step.1 rest
      (res.1, (if step.2.1 then 1 else 0) + res.2)

/-- The completion state `PlayFile` establishes before the stream starts. -/
def sessionInit : CompletionState :=
  { playbackComplete := false, chanClosed := false }

/-! ## FilePlayer: Stop -/

/-- One step of the teardown sequence `Stop` performs on its first
effective call. -/
inductive TeardownStep where
  | setStoppedFlag
  | closeStopChan
  | joinProducer
  | stopStream
  | closeStream
  | closeDecoder
  deriving Repr, DecidableEq

/-- The `FilePlayer` fields `Stop` reads and writes. `stopChanNil` models
`stopChan == nil` (true from `NewFilePlayer` until the first `PlayFile`
allocates the channel); `streamOpen` / `decoderOpen` model
`stream != nil` / `decoder != nil`. -/
structure StopState where
  stopped : Bool
  stopChanNil : Bool
  stopChanClosed : Bool
  streamOpen : Bool
  decoderOpen : Bool
  deriving Repr, DecidableEq

/-- `FilePlayer.Stop`, serialized by its mutex. Returns `none` when the
call panics (Go's `close` on a nil channel), otherwise the new state and
the teardown steps performed, in order; the Go function returns `nil`
(success) on every non-panicking path. -/
def FilePlayer.Stop (p : StopState) : Option (StopState × List TeardownStep) :=
  if p.stopped then some (p, [])
  else if p.stopChanNil then none
  else
    some ({ stopped := true, stopChanNil := p.stopChanNil, stopChanClosed := true,
            streamOpen := false, decoderOpen := false },
      [.setStoppedFlag, .closeStopChan, .joinProducer] ++
        (if p.streamOpen then [.stopStream, .closeStream] else []) ++
        (if p.decoderOpen then [.closeDecoder] else []))

/-- The `Stop`-relevant state of a freshly constructed `FilePlayer`
(`NewFilePlayer`: all zero values, `stopChan` nil). -/
def FilePlayer.new : StopState :=
  { stopped := false, stopChanNil := true, stopChanClosed := false,
    streamOpen := false, decoderOpen := false }

/-- `FilePlayer.OpenFile`, restricted to the `Stop`-relevant fields: a
successful open installs a decoder and touches nothing else. -/
def FilePlayer.OpenFile (p : StopState) : StopState :=
  { p with decoderOpen := true }

/-- `FilePlayer.PlayFile`, restricted to the `Stop`-relevant fields: the
per-session reset allocates a fresh (open) `stopChan`, clears `stopped`,
and a successful stream initialization leaves the stream open. -/
def FilePlayer.PlayFile (p : StopState) : StopState :=
  { p with
    stopped := false
    stopChanNil := false
    stopChanClosed := false
    streamOpen := true }

/-- Iterate `Stop` `n` times, collecting every call's result
(`none` entries are panics) and the concatenated teardown trace. -/
def iterateStop (p : StopState) : Nat → StopState × List (Option Unit) × List TeardownStep
  | 0 => (p, [], [])
  | Nat.succ k =>
      match FilePlayer.Stop p with
      | none => (p, [none], [])
      | some (p', steps) =>
          let rest := iterateStop p' k
          (rest.1, some () :: rest.2.1, steps ++ rest.2.2)

/-! ## FilePlayer: GetPlaybackStatus -/

/-- The fields of `types.PlaybackStatus` that `GetPlaybackStatus` derives
from the two atomic counters. -/
structure PlaybackStatus where
  PlayedSamples : Nat
  BufferedSamples : Nat
  deriving Repr, DecidableEq

/-- `FilePlayer.GetPlaybackStatus`, as a function of the two counter
values its atomic loads observe: `buffered = produced - played` clamped
at zero. -/
def GetPlaybackStatus (produced played : Nat) : PlaybackStatus :=
  { PlayedSamples := played
    BufferedSamples := if produced > played then produced - played else 0 }

/-! ## Helper lemmas -/

/-- `List.getD` at an in-bounds index is `getElem`. -/
lemma getD_of_lt {α : Type} (l : List α) (n : Nat) (d : α) (h : n < l.length) :
    l.getD n d = l[n] := by
  simp [List.getD_eq_getElem?_getD, List.getElem?_eq_getElem h]

/-- Masking with `2 ^ k - 1` is reduction modulo `2 ^ k` (the ring's
`pos & mask` idiom). -/
lemma and_two_pow_sub_one (m k : Nat) : m &&& (2 ^ k - 1) = m % 2 ^ k := by
  apply Nat.eq_of_testBit_eq
  intro i
  simp [Nat.testBit_and, Nat.testBit_mod_two_pow, Bool.and_comm]

/-- Reassembling the four little-endian bytes of `n` yields `n % 2 ^ 32`. -/
lemma leU32_u32leBytes (n : Nat) :
    leU32 (n % 2 ^ 8) (n / 2 ^ 8 % 2 ^ 8) (n / 2 ^ 16 % 2 ^ 8) (n / 2 ^ 24 % 2 ^ 8) =
      n % 2 ^ 32 := by
  unfold leU32
  omega

/-- Reassembling the two little-endian bytes of `n` yields `n % 2 ^ 16`. -/
lemma leU16_u16leBytes (n : Nat) :
    leU16 (n % 2 ^ 8) (n / 2 ^ 8 % 2 ^ 8) = n % 2 ^ 16 := by
  unfold leU16
  omega

/-! ## C8 — GetPlaybackStatus buffered non-negativity -/

/-- **C8.** For every pair of counter values observed by
`GetPlaybackStatus`, the returned status has `BufferedSamples` equal to
`produced - played` when `produced > played` and `0` otherwise, hence
(viewed in `ℤ`, where the unclamped subtraction could go negative) it is
the clamp `max 0 (produced - played)` and is never negative; and
`PlayedSamples` equals the loaded played counter. -/
theorem C8_buffered_nonneg (produced played : Nat) :
    (GetPlaybackStatus produced played).PlayedSamples = played ∧
    (GetPlaybackStatus produced played).BufferedSamples =
      (if produced > played then produced - played else 0) ∧
    ((GetPlaybackStatus produced played).BufferedSamples : ℤ) =
      max 0 ((produced : ℤ) - (played : ℤ)) ∧
    0 ≤ ((GetPlaybackStatus produced played).BufferedSamples : ℤ) := by
  refine ⟨rfl, rfl, ?_, Int.natCast_nonneg _⟩
  unfold GetPlaybackStatus
  by_cases h : produced > played <;> simp [h] <;> omega

/-! ## C4 — termination exactness of the completion signal -/

/-- Running any callback sequence: the fire count is 1 from an open-signal
state exactly when some invocation observes the termination guard, 0 from
a closed-signal state; and the channel ends closed exactly when it started
closed or some invocation observed the guard. -/
lemma runCallbacks_spec (obs : List CallbackObs) (s : CompletionState) :
    (runCallbacks s obs).2 =
      (if s.chanClosed then 0 else if obs.any termGuard then 1 else 0) ∧
    (runCallbacks s obs).1.chanClosed = (s.chanClosed || obs.any termGuard) := by
  induction obs generalizing s with
  | nil => simp [runCallbacks]
  | cons o rest ih =>
    by_cases hg : termGuard o
    · rcases ih { playbackComplete := true, chanClosed := true } with ⟨hc, hcl⟩
      simp only at hc hcl
      simp [runCallbacks, callbackTermStep, hg, hc, hcl]
      cases h : s.chanClosed <;> simp
    · rcases ih s with ⟨hc, hcl⟩
      simp [runCallbacks, callbackTermStep, hg, hc, hcl]

/-- **C4.** Across a single playback session (callback sequence started
from the state `PlayFile` establishes: completion latch clear, completion
channel open), the completion signal is fired at most once, and exactly
once iff some callback invocation observes the termination condition
(`producerDone` set, ring empty, no partial `currentFrame`); a fire only
happens under that guard and latches both `playbackComplete` and the
closed channel; re-entering the branch once the channel is closed never
fires again. `Wait()` blocks on the channel, so it returns exactly when
the channel is (irreversibly) closed — once per session. -/
theorem C4_termination_exactness :
    (∀ obs : List CallbackObs, (runCallbacks sessionInit obs).2 ≤ 1) ∧
    (∀ obs : List CallbackObs,
      ((runCallbacks sessionInit obs).2 = 1 ↔ obs.any termGuard = true)) ∧
    (∀ obs : List CallbackObs,
      (runCallbacks sessionInit obs).1.chanClosed = obs.any termGuard) ∧
    (∀ (s : CompletionState) (o : CallbackObs),
      (callbackTermStep s o).2.1 = true →
        termGuard o = true ∧ (callbackTermStep s o).1.playbackComplete = true ∧
          (callbackTermStep s o).1.chanClosed = true) ∧
    (∀ (s : CompletionState) (o : CallbackObs), s.chanClosed = true →
      (callbackTermStep s o).2.1 = false ∧ (callbackTermStep s o).1.chanClosed = true) := by
  have hinit : sessionInit.chanClosed = false := rfl
  refine ⟨?_, ?_, ?_, ?_, ?_⟩
  · intro obs
    rw [(runCallbacks_spec obs sessionInit).1, hinit]
    by_cases h : obs.any termGuard <;> simp [h]
  · intro obs
    rw [(runCallbacks_spec obs sessionInit).1, hinit]
    by_cases h : obs.any termGuard <;> simp [h]
  · intro obs
    rw [(runCallbacks_spec obs sessionInit).2, hinit]
    simp
  · intro s o hf
    unfold callbackTermStep at *
    by_cases hg : termGuard o <;> simp [hg] at hf ⊢
  · intro s o hc
    unfold callbackTermStep
    by_cases hg : termGuard o <;> simp [hg, hc]

/-- Witness for C4 at a concrete session: a first invocation that sees the
termination condition fires the signal (count 1), and a re-entry with the
channel already closed does not fire. -/
theorem C4_witness :
    (runCallbacks sessionInit
      [{ producerDone := true, availRead := 0, currentFrameNil := true }]).2 = 1 ∧
    (callbackTermStep { playbackComplete := true, chanClosed := true }
      { producerDone := true, availRead := 0, currentFrameNil := true }).2.1 = false :=
  ⟨(C4_termination_exactness.2.1
      [{ producerDone := true, availRead := 0, currentFrameNil := true }]).mpr (by decide),
   (C4_termination_exactness.2.2.2.2
      { playbackComplete := true, chanClosed := true }
      { producerDone := true, availRead := 0, currentFrameNil := true } rfl).1⟩

/-! ## C5 — Stop idempotence -/

/-- Iterating `Stop` on an already-stopped player: every call is a no-op
returning success and performs no teardown step. -/
lemma iterateStop_stopped (p : StopState) (h : p.stopped = true) (k : Nat) :
    iterateStop p k = (p, List.replicate k (some ()), []) := by
  induction k with
  | zero => simp [iterateStop]
  | succ m ih =>
    have hstop : FilePlayer.Stop p = some (p, []) := by
      unfold FilePlayer.Stop
      simp [h]
    simp [iterateStop, hstop, ih, List.replicate_succ]

/-- **C5 counterexample.** The claim admits calls "from any state at or
beyond Opened", but on the code a first `Stop` issued after `OpenFile`
and before any `PlayFile` reaches `close(fp.stopChan)` with a nil
`stopChan` (only `PlayFile` allocates it) and panics instead of returning
success: the modelled call produces `none` (panic), not a success. -/
theorem C5_counterexample :
    FilePlayer.Stop (FilePlayer.OpenFile FilePlayer.new) = none := by
  decide

/-- **C5 (amended).** Calling `Stop()` any number of times on the same
`FilePlayer`, from any state in which `PlayFile` has initialized the stop
channel (at or beyond Playing) with the player not yet stopped and the
stream and decoder open, results in exactly one teardown sequence — set
the Stopped flag, close the stop channel, join the producer, stop the
stream, close the stream, close the decoder, in that order — returns
success from every call, and every call after the first is a no-op (the
amendment restricts "at or beyond Opened" to states where the stop
channel exists, since `Stop` before any `PlayFile` panics on a nil
channel). -/
theorem C5_stop_idempotent (p : StopState) (n : Nat)
    (hchan : p.stopChanNil = false) (hstopped : p.stopped = false)
    (hstream : p.streamOpen = true) (hdec : p.decoderOpen = true)
    (hn : 1 ≤ n) :
    (iterateStop p n).2.1 = List.replicate n (some ()) ∧
    (iterateStop p n).2.2 =
      [TeardownStep.setStoppedFlag, TeardownStep.closeStopChan,
        TeardownStep.joinProducer, TeardownStep.stopStream,
        TeardownStep.closeStream, TeardownStep.closeDecoder] ∧
    (iterateStop p n).1.stopped = true ∧
    FilePlayer.Stop (iterateStop p n).1 = some ((iterateStop p n).1, []) := by
  obtain ⟨s1, s2, s3, s4, s5⟩ := p
  simp only at hchan hstopped hstream hdec
  subst hchan hstopped hstream hdec
  obtain ⟨m, rfl⟩ : ∃ m, n = m + 1 := ⟨n - 1, by omega⟩
  have hstop : FilePlayer.Stop ⟨false, false, s3, true, true⟩ =
      some (⟨true, false, true, false, false⟩,
        [TeardownStep.setStoppedFlag, TeardownStep.closeStopChan,
          TeardownStep.joinProducer, TeardownStep.stopStream,
          TeardownStep.closeStream, TeardownStep.closeDecoder]) := by
    unfold FilePlayer.Stop
    simp
  have hrest := iterateStop_stopped ⟨true, false, true, false, false⟩ rfl m
  have hstop2 : FilePlayer.Stop ⟨true, false, true, false, false⟩ =
      some (⟨true, false, true, false, false⟩, []) := by
    unfold FilePlayer.Stop
    simp
  simp [iterateStop, hstop, hrest, hstop2, List.replicate_succ]

/-- Witness for C5 at the state produced by `NewFilePlayer` → `OpenFile`
→ `PlayFile`, with three consecutive `Stop` calls. -/
theorem C5_witness :
    (iterateStop (FilePlayer.PlayFile (FilePlayer.OpenFile FilePlayer.new)) 3).2.1 =
      List.replicate 3 (some ()) ∧
    (iterateStop (FilePlayer.PlayFile (FilePlayer.OpenFile FilePlayer.new)) 3).2.2 =
      [TeardownStep.setStoppedFlag, TeardownStep.closeStopChan,
        TeardownStep.joinProducer, TeardownStep.stopStream,
        TeardownStep.closeStream, TeardownStep.closeDecoder] := by
  have h := C5_stop_idempotent (FilePlayer.PlayFile (FilePlayer.OpenFile FilePlayer.new)) 3
    rfl rfl rfl rfl (by omega)
  exact ⟨h.1, h.2.1⟩

/-! ## C9 — Unmarshal truncation errors -/

/-- **C9.** For every input byte sequence, `Unmarshal` fails with the
truncated-header error exactly when the input is shorter than 12 bytes
(in particular on a 3-byte input), fails with the truncated-payload error
exactly when the input has at least 12 bytes but fewer than
`12 + audio_length_bytes` where `audio_length_bytes` is the u32 read at
offset 8, and succeeds otherwise. -/
theorem C9_unmarshal_truncation (af : AudioFrame) (data : List Nat) :
    ((af.Unmarshal data).2 = some UnmarshalError.truncatedHeader ↔ data.length < 12) ∧
    ((af.Unmarshal data).2 = some UnmarshalError.truncatedPayload ↔
      12 ≤ data.length ∧ data.length <
        12 + leU32 (data.getD 8 0) (data.getD 9 0) (data.getD 10 0) (data.getD 11 0)) ∧
    ((af.Unmarshal data).2 = none ↔
      12 + leU32 (data.getD 8 0) (data.getD 9 0) (data.getD 10 0) (data.getD 11 0) ≤
        data.length) ∧
    (af.Unmarshal [0, 1, 2]).2 = some UnmarshalError.truncatedHeader := by
  refine ⟨?_, ?_, ?_, by simp [AudioFrame.Unmarshal]⟩ <;>
    · simp only [AudioFrame.Unmarshal]
      split_ifs with h1 h2 <;> simp_all <;> omega

/-! ## C10 — Unmarshal is not atomic on the truncated-payload error -/

/-- **C10.** On an input of at least 12 bytes whose `audio_length_bytes`
field exceeds the remaining input, `Unmarshal` returns the
truncated-payload error with the receiver's header fields already
overwritten by the values parsed from the input and its `Audio` field
unchanged; on an input shorter than 12 bytes the receiver is returned
entirely unchanged. -/
theorem C10_unmarshal_partial_mutation (af : AudioFrame) (data : List Nat) :
    (data.length < 12 →
      af.Unmarshal data = (af, some UnmarshalError.truncatedHeader)) ∧
    (12 ≤ data.length →
      data.length <
        12 + leU32 (data.getD 8 0) (data.getD 9 0) (data.getD 10 0) (data.getD 11 0) →
      af.Unmarshal data =
        ({ Format :=
            { SampleRate := leU32 (data.getD 0 0) (data.getD 1 0) (data.getD 2 0) (data.getD 3 0)
              Channels := data.getD 4 0
              BitsPerSample := data.getD 5 0 }
           SamplesCount := leU16 (data.getD 6 0) (data.getD 7 0)
           Audio := af.Audio }, some UnmarshalError.truncatedPayload)) := by
  constructor
  · intro h
    simp [AudioFrame.Unmarshal, h]
  · intro h1 h2
    simp only [AudioFrame.Unmarshal]
    rw [if_neg (by omega), if_pos (by omega)]

/-- A concrete frame used as the `Unmarshal` receiver in witnesses. -/
def afEx : AudioFrame :=
  { Format := { SampleRate := 48000, Channels := 2, BitsPerSample := 16 }
    SamplesCount := 3
    Audio := [9, 9] }

/-- A 12-byte input whose audio-length field (5) exceeds the zero
remaining bytes. -/
def data12 : List Nat := [68, 172, 0, 0, 2, 16, 4, 0, 5, 0, 0, 0]

/-- Witness for C10: the 3-byte input leaves the receiver unchanged; the
truncated 12-byte input overwrites the header fields (44100 Hz, 2
channels, 16 bits, 4 samples) while keeping the receiver's payload. -/
theorem C10_witness :
    afEx.Unmarshal [0, 1, 2] = (afEx, some UnmarshalError.truncatedHeader) ∧
    afEx.Unmarshal data12 =
      ({ Format := { SampleRate := 44100, Channels := 2, BitsPerSample := 16 }
         SamplesCount := 4
         Audio := [9, 9] }, some UnmarshalError.truncatedPayload) :=
  ⟨(C10_unmarshal_partial_mutation afEx [0, 1, 2]).1 (by decide),
   ((C10_unmarshal_partial_mutation afEx data12).2 (by decide) (by decide)).trans
     (by decide)⟩

/-! ## C1 — codec round-trip -/

/-- The concrete frame of scenario S1. -/
def s1frame : AudioFrame :=
  { Format := { SampleRate := 44100, Channels := 2, BitsPerSample := 16 }
    SamplesCount := 4
    Audio := [1, 2, 3, 4, 5, 6, 7, 8, 9, 10, 11, 12, 13, 14, 15, 16] }

/-- **C1.** For every frame `f` whose fields fit their Go integer types
and whose payload length is at most `2 ^ 32 - 1`, `Unmarshal` applied (to
any receiver) on `Marshal f` succeeds and yields a frame equal to `f` in
every header field with a byte-for-byte equal payload; and on the
concrete S1 frame (44100 Hz, 2 channels, 16 bits, 4 samples, payload
`0x01..0x10`) `Marshal` produces exactly the 28-byte buffer whose first
12 bytes are the little-endian header
`[0x44, 0xAC, 0x00, 0x00, 0x02, 0x10, 0x04, 0x00, 0x10, 0x00, 0x00, 0x00]`
followed by the payload. -/
theorem C1_codec_roundtrip (af0 f : AudioFrame)
    (hsr : f.Format.SampleRate < 2 ^ 32) (hch : f.Format.Channels < 2 ^ 8)
    (hbps : f.Format.BitsPerSample < 2 ^ 8) (hsc : f.SamplesCount < 2 ^ 16)
    (hlen : f.Audio.length ≤ 2 ^ 32 - 1) :
    af0.Unmarshal f.Marshal = (f, none) ∧
    s1frame.Marshal =
      [0x44, 0xAC, 0x00, 0x00, 0x02, 0x10, 0x04, 0x00, 0x10, 0x00, 0x00, 0x00,
        1, 2, 3, 4, 5, 6, 7, 8, 9, 10, 11, 12, 13, 14, 15, 16] := by
  refine ⟨?_, by decide⟩
  obtain ⟨⟨sr, ch, bps⟩, sc, audio⟩ := f
  simp only at hsr hch hbps hsc hlen
  simp only [AudioFrame.Marshal, u32leBytes, u16leBytes, List.cons_append,
    List.nil_append, AudioFrame.Unmarshal, List.getD_cons_zero, List.getD_cons_succ,
    List.length_cons]
  rw [if_neg (by omega)]
  simp only [leU32_u32leBytes, leU16_u16leBytes]
  rw [if_neg (by omega)]
  simp only [Nat.mod_eq_of_lt hsr, Nat.mod_eq_of_lt hch, Nat.mod_eq_of_lt hbps,
    Nat.mod_eq_of_lt hsc, Nat.mod_eq_of_lt (show audio.length < 2 ^ 32 by omega),
    List.drop_succ_cons, List.drop_zero, List.take_length]

/-- Witness for C1 at the S1 frame (receiver: the unrelated `afEx`). -/
theorem C1_witness :
    afEx.Unmarshal s1frame.Marshal = (s1frame, none) :=
  (C1_codec_roundtrip afEx s1frame (by decide) (by decide) (by decide) (by decide)
    (by decide)).1

/-! ## C7 — ring capacity invariant -/

/-- Every byte-ring operation preserves the position invariant
(`readPos ≤ writePos` and occupancy at most `size`) and the size. -/
lemma byteStep_inv (rb : RingBuffer) (op : ByteRingOp)
    (h1 : rb.readPos ≤ rb.writePos) (h2 : rb.writePos - rb.readPos ≤ rb.size) :
    (op.apply rb).readPos ≤ (op.apply rb).writePos ∧
      (op.apply rb).writePos - (op.apply rb).readPos ≤ (op.apply rb).size := by
  cases op with
  | write data =>
    simp only [ByteRingOp.apply, RingBuffer.Write, RingBuffer.AvailableWrite]
    split_ifs <;> first | exact ⟨h1, h2⟩ | (dsimp only; omega)
  | read outLen =>
    simp only [ByteRingOp.apply, RingBuffer.Read, RingBuffer.AvailableRead]
    split_ifs <;> first | exact ⟨h1, h2⟩ | (dsimp only; omega)
  | consume n =>
    simp only [ByteRingOp.apply, RingBuffer.Consume, RingBuffer.AvailableRead]
    split_ifs <;> first | exact ⟨h1, h2⟩ | (dsimp only; omega)
  | reset =>
    simp only [ByteRingOp.apply, RingBuffer.Reset]
    omega

/-- Every frame-ring operation preserves the position invariant and the
size. -/
lemma frameStep_inv (rb : AudioFrameRingBuffer) (op : FrameRingOp)
    (h1 : rb.readPos ≤ rb.writePos) (h2 : rb.writePos - rb.readPos ≤ rb.size) :
    (op.apply rb).readPos ≤ (op.apply rb).writePos ∧
      (op.apply rb).writePos - (op.apply rb).readPos ≤ (op.apply rb).size := by
  cases op with
  | write heap frames =>
    simp only [FrameRingOp.apply, AudioFrameRingBuffer.Write,
      AudioFrameRingBuffer.AvailableWrite]
    split_ifs <;> first | exact ⟨h1, h2⟩ | (dsimp only; omega)
  | read numFrames =>
    simp only [FrameRingOp.apply, AudioFrameRingBuffer.Read,
      AudioFrameRingBuffer.AvailableRead]
    split_ifs <;> first | exact ⟨h1, h2⟩ | (dsimp only; omega)
  | reset =>
    simp only [FrameRingOp.apply, AudioFrameRingBuffer.Reset]
    omega

/-- **C7.** For both the byte ring and the frame ring, in every state
reachable from a fresh ring by any sequence of operations,
`readPos ≤ writePos` and `writePos - readPos ≤ capacity` hold (the
positions are `Nat`, so `0 ≤ writePos - readPos` is inherent); and every
operation other than `reset` leaves both position counters ≥ their old
values (monotone non-decrease except across reset). -/
theorem C7_ring_capacity_invariant :
    (∀ rb : RingBuffer, ByteRingReachable rb →
      rb.readPos ≤ rb.writePos ∧ rb.writePos - rb.readPos ≤ rb.size) ∧
    (∀ rb : AudioFrameRingBuffer, FrameRingReachable rb →
      rb.readPos ≤ rb.writePos ∧ rb.writePos - rb.readPos ≤ rb.size) ∧
    (∀ (rb : RingBuffer) (op : ByteRingOp), op ≠ ByteRingOp.reset →
      rb.writePos ≤ (op.apply rb).writePos ∧ rb.readPos ≤ (op.apply rb).readPos) ∧
    (∀ (rb : AudioFrameRingBuffer) (op : FrameRingOp), op ≠ FrameRingOp.reset →
      rb.writePos ≤ (op.apply rb).writePos ∧ rb.readPos ≤ (op.apply rb).readPos) := by
  refine ⟨?_, ?_, ?_, ?_⟩
  · intro rb h
    induction h with
    | fresh size => simp [RingBuffer.New]
    | step rb op hr ih => exact byteStep_inv rb op ih.1 ih.2
  · intro rb h
    induction h with
    | fresh capacity => simp [AudioFrameRingBuffer.New]
    | step rb op hr ih => exact frameStep_inv rb op ih.1 ih.2
  · intro rb op hop
    cases op with
    | write data =>
      simp only [ByteRingOp.apply, RingBuffer.Write]
      split_ifs <;> dsimp only <;> omega
    | read outLen =>
      simp only [ByteRingOp.apply, RingBuffer.Read]
      split_ifs <;> dsimp only <;> omega
    | consume n =>
      simp only [ByteRingOp.apply, RingBuffer.Consume]
      split_ifs <;> dsimp only <;> omega
    | reset => exact absurd rfl hop
  · intro rb op hop
    cases op with
    | write heap frames =>
      simp only [FrameRingOp.apply, AudioFrameRingBuffer.Write]
      split_ifs <;> dsimp only <;> omega
    | read numFrames =>
      simp only [FrameRingOp.apply, AudioFrameRingBuffer.Read]
      split_ifs <;> dsimp only <;> omega
    | reset => exact absurd rfl hop

/-- Witness for C7 at concrete reachable states and concrete non-reset
operations. -/
theorem C7_witness :
    ((RingBuffer.New 5).readPos ≤ (RingBuffer.New 5).writePos ∧
      (RingBuffer.New 5).writePos - (RingBuffer.New 5).readPos ≤ (RingBuffer.New 5).size) ∧
    ((AudioFrameRingBuffer.New 4).readPos ≤ (AudioFrameRingBuffer.New 4).writePos ∧
      (AudioFrameRingBuffer.New 4).writePos - (AudioFrameRingBuffer.New 4).readPos ≤
        (AudioFrameRingBuffer.New 4).size) ∧
    (RingBuffer.New 5).writePos ≤
      ((ByteRingOp.write [1, 2]).apply (RingBuffer.New 5)).writePos ∧
    (AudioFrameRingBuffer.New 4).readPos ≤
      ((FrameRingOp.read 1).apply (AudioFrameRingBuffer.New 4)).readPos :=
  ⟨C7_ring_capacity_invariant.1 (RingBuffer.New 5) (ByteRingReachable.fresh 5),
   C7_ring_capacity_invariant.2.1 (AudioFrameRingBuffer.New 4) (FrameRingReachable.fresh 4),
   (C7_ring_capacity_invariant.2.2.1 (RingBuffer.New 5) (ByteRingOp.write [1, 2])
     (by decide)).1,
   (C7_ring_capacity_invariant.2.2.2 (AudioFrameRingBuffer.New 4) (FrameRingOp.read 1)
     (by decide)).2⟩

/-! ## C6 — byte ring read contract -/

/-- **C6 counterexample.** The claim requires `(0, InsufficientData)`
"whenever the number of readable bytes is zero", for every output buffer;
but on an empty output buffer the code returns `(0, nil)` before ever
checking availability: on a fresh ring (0 readable bytes) a read into an
empty buffer reports no error. -/
theorem C6_counterexample :
    (RingBuffer.New 8).AvailableRead = 0 ∧
    ((RingBuffer.New 8).Read 0).2.2.2 ≠ some RingError.insufficientData := by
  decide

/-- **C6 (amended).** For every well-formed ring state and output buffer
`out`: a read into an empty `out` returns `(0, no error)` without moving
the ring; for non-empty `out`, `read(out)` returns `(0, InsufficientData)`
exactly when zero bytes are readable, and otherwise reads exactly
`min(out.length, available)` bytes into `out` and returns that count with
no error (the amendment exempts the empty output buffer, which the code
accepts with no error even when availability is zero). -/
theorem C6_byte_ring_read (rb : RingBuffer) (outLen : Nat) (hwf : rb.WF) :
    rb.Read 0 = (rb, [], 0, none) ∧
    (0 < outLen → rb.AvailableRead = 0 →
      rb.Read outLen = (rb, [], 0, some RingError.insufficientData)) ∧
    (0 < outLen → 0 < rb.AvailableRead →
      (rb.Read outLen).2.2 = (min outLen rb.AvailableRead, (none : Option RingError)) ∧
      (rb.Read outLen).2.1.length = min outLen rb.AvailableRead) := by
  obtain ⟨hbuf, ⟨k, hk⟩, hle, hcap⟩ := hwf
  refine ⟨by simp [RingBuffer.Read], ?_, ?_⟩
  · intro h1 h2
    rw [RingBuffer.Read, if_neg (by omega), if_pos h2]
  · intro h1 h2
    have hs : 0 < rb.size := hk ▸ Nat.two_pow_pos k
    have havail : rb.AvailableRead ≤ rb.size := by
      unfold RingBuffer.AvailableRead
      omega
    have hmask : ∀ m : Nat, m &&& rb.mask = m % rb.size := fun m => by
      rw [RingBuffer.mask, hk]
      exact and_two_pow_sub_one m k
    set t := min outLen rb.AvailableRead with ht
    have htpos : 0 < t := by omega
    have htle : t ≤ rb.size := by omega
    set a := rb.readPos % rb.size with ha
    have halt : a < rb.size := Nat.mod_lt _ hs
    have hstart : rb.readPos &&& rb.mask = a := hmask _
    have hend : (rb.readPos + t) &&& rb.mask = (a + t) % rb.size := by
      rw [hmask, ha, Nat.mod_add_mod]
    rw [RingBuffer.Read, if_neg (by omega), if_neg (by omega)]
    rw [← ht, hstart]
    dsimp only
    rw [hend]
    by_cases hwrap : a + t < rb.size
    · rw [Nat.mod_eq_of_lt hwrap, if_pos (by omega)]
      refine ⟨rfl, ?_⟩
      simp only [List.length_take, List.length_drop, hbuf]
      omega
    · have he : (a + t) % rb.size = a + t - rb.size := by
        rw [Nat.mod_eq_sub_mod (by omega), Nat.mod_eq_of_lt (by omega)]
      rw [he, if_neg (by omega)]
      refine ⟨rfl, ?_⟩
      simp only [List.length_append, List.length_take, List.length_drop, hbuf]
      omega

/-- A concrete well-formed ring holding three readable bytes, used by the
witnesses: fresh ring of size 4 after writing `[5, 6, 7]`. -/
def rbEx : RingBuffer := ((RingBuffer.New 4).Write [5, 6, 7]).1

/-- Witness for C6 on `rbEx` with a 2-byte output buffer: two bytes are
read with no error; and the two boundary cases at concrete states. -/
theorem C6_witness :
    (rbEx.Read 2).2.2 = (2, (none : Option RingError)) ∧
    (rbEx.Read 2).2.1.length = 2 ∧
    (RingBuffer.New 4).Read 1 = (RingBuffer.New 4, [], 0, some RingError.insufficientData) := by
  have hwf : rbEx.WF := ⟨by decide, ⟨2, by decide⟩, by decide, by decide⟩
  have h := (C6_byte_ring_read rbEx 2 hwf).2.2 (by decide) (by decide)
  have hwf0 : (RingBuffer.New 4).WF := ⟨by decide, ⟨2, by decide⟩, by decide, by decide⟩
  have h0 := (C6_byte_ring_read (RingBuffer.New 4) 1 hwf0).2.1 (by decide) (by decide)
  exact ⟨by rw [h.1]; decide, by rw [h.2]; decide, h0⟩

/-! ## C2 — byte ring all-or-nothing, non-tearing write -/

/-- After a successful write into an empty well-formed ring, reading back
`data.length` bytes yields exactly `data` (also across the wrap boundary)
with count `data.length` and no error. -/
lemma write_read_roundtrip (rb : RingBuffer) (data : List Nat)
    (hwf : rb.WF) (hempty : rb.readPos = rb.writePos)
    (hfit : data.length ≤ rb.AvailableWrite) (hne : data ≠ []) :
    ((rb.Write data).1.Read data.length).2.1 = data ∧
    ((rb.Write data).1.Read data.length).2.2 = (data.length, (none : Option RingError)) := by
  obtain ⟨hbuf, ⟨k, hk⟩, hle, hcap⟩ := hwf
  have hs : 0 < rb.size := hk ▸ Nat.two_pow_pos k
  have hlpos : 0 < data.length := List.length_pos.mpr hne
  have hmask : ∀ m : Nat, m &&& (rb.size - 1) = m % rb.size := fun m => by
    rw [hk]
    exact and_two_pow_sub_one m k
  have havail : rb.AvailableWrite = rb.size := by
    unfold RingBuffer.AvailableWrite
    omega
  have hfits : data.length ≤ rb.size := by omega
  set a := rb.writePos % rb.size with ha
  have halt : a < rb.size := Nat.mod_lt _ hs
  have hstartw : rb.writePos &&& (rb.size - 1) = a := hmask _
  have hendw : (rb.writePos + data.length) &&& (rb.size - 1) = (a + data.length) % rb.size := by
    rw [hmask, ha, Nat.mod_add_mod]
  have hstartr : rb.readPos &&& (rb.size - 1) = a := by
    rw [hempty]
    exact hstartw
  have hendr : (rb.readPos + data.length) &&& (rb.size - 1) = (a + data.length) % rb.size := by
    rw [hempty]
    exact hendw
  by_cases hwrap : a + data.length < rb.size
  · -- contiguous write and contiguous read-back
    have hmod : (a + data.length) % rb.size = a + data.length := Nat.mod_eq_of_lt hwrap
    have hW : rb.Write data =
        ({ rb with
            buffer := copyInto rb.buffer a data
            writePos := rb.writePos + data.length }, data.length, none) := by
      rw [RingBuffer.Write, if_neg (by omega), if_neg (by omega)]
      dsimp only [RingBuffer.mask]
      rw [hstartw, hendw, hmod, if_pos (by omega)]
    rw [hW]
    dsimp only
    have hAR : ({ rb with
        buffer := copyInto rb.buffer a data
        writePos := rb.writePos + data.length } : RingBuffer).AvailableRead = data.length := by
      unfold RingBuffer.AvailableRead
      dsimp only
      omega
    rw [RingBuffer.Read, if_neg (by omega), if_neg (by rw [hAR]; omega)]
    dsimp only [RingBuffer.mask]
    rw [hAR, Nat.min_self, hstartr, hendr, hmod, if_pos (by omega)]
    refine ⟨?_, rfl⟩
    show ((copyInto rb.buffer a data).drop a).take (a + data.length - a) = data
    rw [Nat.add_sub_cancel_left]
    unfold copyInto
    rw [List.append_assoc,
      List.drop_left' (by rw [List.length_take]; omega), List.take_left' rfl]
  · -- the write wraps; the read stitches the two chunks back together
    have hge : rb.size ≤ a + data.length := by omega
    have hmod : (a + data.length) % rb.size = a + data.length - rb.size := by
      rw [Nat.mod_eq_sub_mod hge, Nat.mod_eq_of_lt (by omega)]
    set e := a + data.length - rb.size with hE
    set fc := rb.size - a with hfc
    have hfcle : fc ≤ data.length := by omega
    have hele : e ≤ a := by omega
    have hlenX : (data.drop fc).length = e := by
      rw [List.length_drop]
      omega
    have hlenZ : (data.take fc).length = fc := by
      rw [List.length_take]
      omega
    have hlenTa : (rb.buffer.take a).length = a := by
      rw [List.length_take]
      omega
    have hB1 : copyInto rb.buffer a (data.take fc) = rb.buffer.take a ++ data.take fc := by
      unfold copyInto
      rw [hlenZ, List.drop_of_length_le (by omega), List.append_nil]
    have hB2 : copyInto (rb.buffer.take a ++ data.take fc) 0 (data.drop fc) =
        data.drop fc ++ ((rb.buffer.take a).drop e ++ data.take fc) := by
      unfold copyInto
      rw [List.take_zero, List.nil_append, hlenX, Nat.zero_add,
        List.drop_append_eq_append_drop, hlenTa]
      rw [show e - a = 0 by omega, List.drop_zero]
    have hW : rb.Write data =
        ({ rb with
            buffer := data.drop fc ++ ((rb.buffer.take a).drop e ++ data.take fc)
            writePos := rb.writePos + data.length }, data.length, none) := by
      rw [RingBuffer.Write, if_neg (by omega), if_neg (by omega)]
      dsimp only [RingBuffer.mask]
      rw [hstartw, hendw, hmod, if_neg (by omega), ← hfc, hB1, hB2]
    rw [hW]
    dsimp only
    set B := data.drop fc ++ ((rb.buffer.take a).drop e ++ data.take fc) with hB
    have hAR : ({ rb with
        buffer := B
        writePos := rb.writePos + data.length } : RingBuffer).AvailableRead = data.length := by
      unfold RingBuffer.AvailableRead
      dsimp only
      omega
    rw [RingBuffer.Read, if_neg (by omega), if_neg (by rw [hAR]; omega)]
    dsimp only [RingBuffer.mask]
    rw [hAR, Nat.min_self, hstartr, hendr, hmod, if_neg (by omega)]
    refine ⟨?_, rfl⟩
    show B.drop a ++ B.take e = data
    have htakee : B.take e = data.drop fc := by
      rw [hB]
      exact List.take_left' hlenX
    have hdropa : B.drop a = data.take fc := by
      rw [hB, List.drop_append_eq_append_drop, hlenX,
        List.drop_of_length_le (by rw [hlenX]; exact hele), List.nil_append,
        List.drop_append_eq_append_drop, List.length_drop, hlenTa,
        List.drop_of_length_le (by simp [List.length_drop, hlenTa]),
        List.nil_append, Nat.sub_self, List.drop_zero]
    rw [hdropa, htakee, List.take_append_drop]

/-- **C2 counterexample.** The claim asserts that whenever `Write`
returns `(data.length, ok)`, a subsequent read of `data.length` bytes
observes exactly `data` — for every ring state. On a ring that already
holds a byte, the subsequent read returns the previously buffered byte,
not the newly written one: after writing `[1]` and then successfully
writing `[2]` (count 1, no error), reading 1 byte yields `[1] ≠ [2]`. -/
theorem C2_counterexample :
    (((RingBuffer.New 2).Write [1]).1.Write [2]).2 = (1, (none : Option RingError)) ∧
    ((((RingBuffer.New 2).Write [1]).1.Write [2]).1.Read 1).2.1 = [1] ∧
    [1] ≠ [2] := by
  decide

/-- **C2 (amended).** For every well-formed ring state and non-empty
`data`: `Write` writes all of `data` (returning `(data.length, ok)`) or
writes nothing and returns `(0, InsufficientSpace)`, the latter exactly
when free space is less than `data.length`; and whenever the write
succeeds *from a ring whose readable region is empty* (`readPos =
writePos` — the amendment, forced because a read from a non-empty ring
first returns the previously buffered bytes), a subsequent read of
`data.length` bytes observes exactly the bytes of `data` in order, even
when the write was split across the wrap boundary. -/
theorem C2_byte_ring_write (rb : RingBuffer) (data : List Nat)
    (hwf : rb.WF) (hne : data ≠ []) :
    (rb.AvailableWrite < data.length →
      rb.Write data = (rb, 0, some RingError.insufficientSpace)) ∧
    (data.length ≤ rb.AvailableWrite →
      (rb.Write data).2 = (data.length, (none : Option RingError)) ∧
      (rb.readPos = rb.writePos →
        ((rb.Write data).1.Read data.length).2.1 = data ∧
        ((rb.Write data).1.Read data.length).2.2 =
          (data.length, (none : Option RingError)))) := by
  have hlpos : 0 < data.length := List.length_pos.mpr hne
  constructor
  · intro h
    rw [RingBuffer.Write, if_neg (by omega), if_pos h]
  · intro h
    refine ⟨?_, fun hempty => write_read_roundtrip rb data hwf hempty h hne⟩
    rw [RingBuffer.Write, if_neg (by omega), if_neg (by omega)]

/-- An empty well-formed ring whose positions sit just before the wrap
boundary (size 4, both positions at 6), so a 3-byte write wraps. -/
def rbW : RingBuffer :=
  { buffer := [0, 0, 0, 0], size := 4, writePos := 6, readPos := 6 }

/-- Witness for C2: a 3-byte write into `rbW` wraps across the boundary
and reads back exactly `[7, 8, 9]`. -/
theorem C2_witness :
    ((rbW.Write [7, 8, 9]).1.Read 3).2.1 = [7, 8, 9] ∧
    (rbW.Write [7, 8, 9]).2 = (3, (none : Option RingError)) := by
  have h := (C2_byte_ring_write rbW [7, 8, 9]
    ⟨rfl, ⟨2, rfl⟩, by decide, by decide⟩ (by decide)).2 (by decide)
  exact ⟨(h.2 rfl).1, h.1⟩

/-! ## C3 — frame ring: partial write, FIFO read-back, deep-copy isolation -/

/-- Adding a positive offset smaller than the modulus moves a residue. -/
lemma mod_add_ne (size a m : Nat) (ha : a < size) (hm : 0 < m) (hms : m < size) :
    (a + m) % size ≠ a := by
  rcases Nat.lt_or_ge (a + m) size with h | h
  · rw [Nat.mod_eq_of_lt h]
    omega
  · rw [Nat.mod_eq_sub_mod h, Nat.mod_eq_of_lt (by omega)]
    omega

/-- `getD` after `set` at a different index. -/
lemma getD_set_ne {α : Type} (l : List α) (i j : Nat) (a d : α)
    (h : i ≠ j) : (l.set i a).getD j d = l.getD j d := by
  simp [List.getD_eq_getElem?_getD, List.getElem?_set_ne h]

/-- `getD` after `set` at the written (in-bounds) index. -/
lemma getD_set_self {α : Type} (l : List α) (i : Nat) (a d : α)
    (h : i < l.length) : (l.set i a).getD i d = a := by
  simp [List.getD_eq_getElem?_getD, List.getElem?_set_self (by simpa using h)]

/-- `getD` on the left part of an append. -/
lemma getD_append_left {α : Type} (l l' : List α) (n : Nat) (d : α)
    (h : n < l.length) : (l ++ l').getD n d = l.getD n d := by
  simp [List.getD_eq_getElem?_getD, List.getElem?_append_left h]

/-- `getD` on the right part of an append, at offset `l.length + j`. -/
lemma getD_append_right_add {α : Type} (l l' : List α) (j : Nat) (d : α) :
    (l ++ l').getD (l.length + j) d = l'.getD j d := by
  simp [List.getD_eq_getElem?_getD, List.getElem?_append_right (Nat.le_add_right _ _),
    Nat.add_sub_cancel_left]

/-- `getD` of a `take` prefix below the cut. -/
lemma getD_take_of_lt {α : Type} (l : List α) (n j : Nat) (d : α) (h : j < n) :
    (l.take n).getD j d = l.getD j d := by
  simp [List.getD_eq_getElem?_getD, List.getElem?_take_of_lt h]

/-- The write loop never changes the storage length. -/
lemma writeFramesLoop_length (fs : List AudioFrameRef) (buf : List AudioFrameRef)
    (heap : Heap) (pos mask : Nat) :
    (writeFramesLoop buf heap pos mask fs).1.length = buf.length := by
  induction fs generalizing buf heap pos with
  | nil => rfl
  | cons f rest ih =>
    simp only [writeFramesLoop]
    rw [ih, List.length_set]

/-- The write loop appends exactly one freshly allocated copy of each
frame's payload to the heap, in frame order, and changes no existing
cell. -/
lemma writeFramesLoop_heap (fs : List AudioFrameRef) (buf : List AudioFrameRef)
    (heap : Heap) (pos mask : Nat)
    (hvalid : ∀ f ∈ fs, f.audioId < heap.length) :
    (writeFramesLoop buf heap pos mask fs).2 =
      heap ++ fs.map (fun f => heap.getD f.audioId []) := by
  induction fs generalizing buf heap pos with
  | nil => simp [writeFramesLoop]
  | cons f rest ih =>
    simp only [writeFramesLoop]
    rw [ih _ _ _ (fun f' hf' => by
      rw [List.length_append, List.length_cons, List.length_nil]
      have := hvalid f' (List.mem_cons_of_mem f hf')
      omega)]
    rw [List.map_congr_left (fun f' hf' => by
      show (heap ++ [heap.getD f.audioId []]).getD f'.audioId [] = heap.getD f'.audioId []
      exact getD_append_left _ _ _ _ (hvalid f' (List.mem_cons_of_mem f hf')))]
    simp [List.append_assoc]

/-- Slots whose physical index the write loop never touches keep their
old contents. -/
lemma writeFramesLoop_get_other (fs : List AudioFrameRef) (buf : List AudioFrameRef)
    (heap : Heap) (pos mask idx : Nat)
    (h : ∀ i, i < fs.length → (pos + i) &&& mask ≠ idx) :
    (writeFramesLoop buf heap pos mask fs).1.getD idx default =
      buf.getD idx default := by
  induction fs generalizing buf heap pos with
  | nil => rfl
  | cons f rest ih =>
    simp only [writeFramesLoop]
    rw [ih _ _ _ (fun i hi => by
      have h2 := h (i + 1) (by simpa using Nat.succ_lt_succ hi)
      rw [show pos + (i + 1) = pos + 1 + i by omega] at h2
      exact h2)]
    exact getD_set_ne _ _ _ _ _ (by simpa using h 0 (by simp))

/-- The slot written for the `j`-th frame holds that frame's struct with
its payload pointer replaced by the `j`-th fresh heap cell. -/
lemma writeFramesLoop_get_new (fs : List AudioFrameRef) (k : Nat) :
    ∀ (buf : List AudioFrameRef) (heap : Heap) (pos j : Nat),
      buf.length = 2 ^ k → fs.length ≤ 2 ^ k → j < fs.length →
      (writeFramesLoop buf heap pos (2 ^ k - 1) fs).1.getD ((pos + j) % 2 ^ k) default =
        { fs.getD j default with audioId := heap.length + j } := by
  induction fs with
  | nil => intro buf heap pos j _ _ hj; simp at hj
  | cons f rest ih =>
    intro buf heap pos j hbuf hfs hj
    simp only [writeFramesLoop, and_two_pow_sub_one]
    cases j with
    | zero =>
      simp only [Nat.add_zero]
      rw [writeFramesLoop_get_other _ _ _ _ _ _ (fun i hi => by
        rw [and_two_pow_sub_one, show pos + 1 + i = pos + (i + 1) by omega,
          ← Nat.mod_add_mod]
        exact mod_add_ne _ _ _ (Nat.mod_lt _ (Nat.two_pow_pos k)) (by omega)
          (by simp only [List.length_cons] at hfs; omega))]
      rw [getD_set_self _ _ _ _ (by rw [hbuf]; exact Nat.mod_lt _ (Nat.two_pow_pos k))]
      simp
    | succ j' =>
      rw [show pos + (j' + 1) = pos + 1 + j' by omega]
      rw [ih _ _ _ _ (by rw [List.length_set]; exact hbuf)
        (by simp only [List.length_cons] at hfs; omega)
        (by simpa using Nat.lt_of_succ_lt_succ hj)]
      simp only [List.getD_cons_succ, List.length_append, List.length_cons,
        List.length_nil]
      rw [show heap.length + (0 + 1) + j' = heap.length + (j' + 1) by omega]

/-- The read loop returns `toRead` frames. -/
lemma readFramesLoop_length (buf : List AudioFrameRef) (pos mask : Nat) (n : Nat) :
    (readFramesLoop buf pos mask n).length = n := by
  induction n generalizing pos with
  | zero => rfl
  | succ m ih => simp [readFramesLoop, ih]

/-- The `j`-th frame the read loop returns is the slot at physical index
`(pos + j) & mask`. -/
lemma readFramesLoop_getD (buf : List AudioFrameRef) (pos mask : Nat) (n j : Nat)
    (hj : j < n) :
    (readFramesLoop buf pos mask n).getD j default =
      buf.getD ((pos + j) &&& mask) default := by
  induction n generalizing pos j with
  | zero => omega
  | succ m ih =>
    cases j with
    | zero => simp [readFramesLoop]
    | succ j' =>
      simp only [readFramesLoop, List.getD_cons_succ]
      rw [ih _ _ (Nat.lt_of_succ_lt_succ hj),
        show pos + 1 + j' = pos + (j' + 1) by omega]

/-- `getD` through a `map`, below the length. -/
lemma getD_map_of_lt {α β : Type} (f : α → β) (l : List α) (j : Nat) (d : β)
    (d0 : α) (h : j < l.length) : (l.map f).getD j d = f (l.getD j d0) := by
  rw [getD_of_lt _ _ _ (by simpa using h), getD_of_lt _ _ _ h, List.getElem_map]

/-- **C3.** For every well-formed frame-ring state and non-empty list of
frames (whose payload slices point into the current heap), `Write` writes
exactly `min(frames.length, free slots)` whole frames and returns that
count; it returns `(0, InsufficientSpace)` exactly when zero slots are
free; and on success, reading back everything buffered returns the
written frames in order at the positions after the previously buffered
ones, with header fields equal to the written frames' and payloads that
are freshly allocated copies: dereferencing them after mutating any
caller-owned buffer (`heap'.set c bytes` for any pre-existing cell `c`)
still yields the payload bytes the caller's frames held at write time. -/
theorem C3_frame_ring_write (rb : AudioFrameRingBuffer) (heap : Heap)
    (frames : List AudioFrameRef) (hwf : rb.WF) (hne : frames ≠ [])
    (hvalid : ∀ f ∈ frames, f.audioId < heap.length) :
    ∀ rb' heap' n err, rb.Write heap frames = (rb', heap', n, err) →
      n = min frames.length rb.AvailableWrite ∧
      (err = some RingError.insufficientSpace ↔ rb.AvailableWrite = 0) ∧
      (err = none ↔ 0 < rb.AvailableWrite) ∧
      (err = none →
        ∀ rb'' frames' err', rb'.Read (rb.AvailableRead + n) = (rb'', frames', err') →
          err' = none ∧ frames'.length = rb.AvailableRead + n ∧
          ∀ c bytes j, c < heap.length → j < n →
            (frames'.getD (rb.AvailableRead + j) default).Format =
              (frames.getD j default).Format ∧
            (frames'.getD (rb.AvailableRead + j) default).SamplesCount =
              (frames.getD j default).SamplesCount ∧
            Heap.deref (heap'.set c bytes) (frames'.getD (rb.AvailableRead + j) default) =
              Heap.deref heap (frames.getD j default)) := by
  obtain ⟨hbuf, ⟨k, hk⟩, hle, hcap⟩ := hwf
  have hmaskeq : rb.mask = 2 ^ k - 1 := by
    rw [AudioFrameRingBuffer.mask, hk]
  have hAwle : rb.AvailableWrite ≤ 2 ^ k := by
    unfold AudioFrameRingBuffer.AvailableWrite
    omega
  intro rb' heap' n err heq
  have hfl : frames.length ≠ 0 := fun h => hne (List.length_eq_zero.mp h)
  rw [AudioFrameRingBuffer.Write, if_neg hfl, hmaskeq] at heq
  dsimp only at heq
  by_cases hz : min frames.length rb.AvailableWrite = 0
  · rw [if_pos hz] at heq
    simp only [Prod.mk.injEq] at heq
    obtain ⟨h1, h2, h3, h4⟩ := heq
    subst h1 h2 h3 h4
    refine ⟨hz.symm, ?_, ?_, fun habs => absurd habs (by simp)⟩
    · constructor
      · intro _
        omega
      · intro _
        rfl
    · constructor
      · intro habs
        exact absurd habs (by simp)
      · intro hpos
        exact ((by omega : ¬ 0 < rb.AvailableWrite) hpos).elim
  · rw [if_neg hz] at heq
    simp only [Prod.mk.injEq] at heq
    obtain ⟨h1, h2, h3, h4⟩ := heq
    subst h1 h2 h3 h4
    set t := min frames.length rb.AvailableWrite with ht
    have htpos : 0 < t := Nat.pos_of_ne_zero hz
    have htlen : t ≤ frames.length := Nat.min_le_left _ _
    have hts : t ≤ 2 ^ k := le_trans (Nat.min_le_right _ _) hAwle
    refine ⟨rfl, ?_, ?_, ?_⟩
    · constructor
      · intro habs
        exact absurd habs (by simp)
      · intro h0
        exact ((by omega : ¬ rb.AvailableWrite = 0) h0).elim
    · exact ⟨fun _ => by omega, fun _ => rfl⟩
    · intro _ rb'' frames' err' heqr
      rw [AudioFrameRingBuffer.Read] at heqr
      unfold AudioFrameRingBuffer.AvailableRead at heqr
      dsimp only at heqr
      rw [if_neg (by omega), if_neg (by omega),
        show rb.writePos + t - rb.readPos = rb.writePos - rb.readPos + t by omega,
        Nat.min_self] at heqr
      unfold AudioFrameRingBuffer.mask at heqr
      dsimp only at heqr
      rw [hk] at heqr
      simp only [Prod.mk.injEq] at heqr
      obtain ⟨hr1, hr2, hr3⟩ := heqr
      subst hr1 hr2 hr3
      refine ⟨rfl, ?_, ?_⟩
      · rw [readFramesLoop_length]
        unfold AudioFrameRingBuffer.AvailableRead
        omega
      · intro c bytes j hc hj
        have hgd : (readFramesLoop
              (writeFramesLoop rb.buffer heap rb.writePos (2 ^ k - 1) (frames.take t)).1
              rb.readPos (2 ^ k - 1) (rb.writePos - rb.readPos + t)).getD
                (rb.AvailableRead + j) default =
            { frames.getD j default with audioId := heap.length + j } := by
          rw [readFramesLoop_getD _ _ _ _ _
            (by unfold AudioFrameRingBuffer.AvailableRead; omega)]
          rw [show rb.readPos + (rb.AvailableRead + j) = rb.writePos + j by
            unfold AudioFrameRingBuffer.AvailableRead; omega]
          rw [and_two_pow_sub_one]
          rw [writeFramesLoop_get_new (frames.take t) k rb.buffer heap rb.writePos j
            (by rw [hbuf, hk]) (by rw [List.length_take]; omega)
            (by rw [List.length_take]; omega)]
          rw [getD_take_of_lt _ _ _ _ (by omega)]
        rw [hgd]
        refine ⟨rfl, rfl, ?_⟩
        unfold Heap.deref
        dsimp only
        rw [writeFramesLoop_heap _ _ _ _ _
          (fun f hf => hvalid f (List.take_subset _ _ hf))]
        rw [getD_set_ne _ _ _ _ _ (by omega), getD_append_right_add]
        rw [getD_map_of_lt _ _ _ _ default (by rw [List.length_take]; omega)]
        rw [getD_take_of_lt _ _ _ _ (by omega)]

/-- The caller-side heap of scenario S3: one allocated payload buffer
holding `[0xAA, 0xBB, 0xCC, 0xDD]`. -/
def heap0W : Heap := [[170, 187, 204, 221]]

/-- A fresh frame ring of capacity 16 (scenario S3). -/
def rb0W : AudioFrameRingBuffer := AudioFrameRingBuffer.New 16

/-- One caller frame whose payload points at the caller's buffer (id 0). -/
def frames0W : List AudioFrameRef :=
  [{ Format := { SampleRate := 44100, Channels := 2, BitsPerSample := 16 }
     SamplesCount := 1
     audioId := 0 }]

/-- Witness for C3 (scenario S3): writing the frame succeeds, and after
overwriting the caller's buffer with `0xFF`s, the frame read back still
dereferences to the original payload. -/
theorem C3_witness :
    (rb0W.Write heap0W frames0W).2.2.2 = none ∧
    Heap.deref ((rb0W.Write heap0W frames0W).2.1.set 0 [255, 255, 255, 255])
        ((((rb0W.Write heap0W frames0W).1.Read
            (rb0W.AvailableRead + (rb0W.Write heap0W frames0W).2.2.1)).2.1).getD
          (rb0W.AvailableRead + 0) default) =
      Heap.deref heap0W (frames0W.getD 0 default) := by
  have h := C3_frame_ring_write rb0W heap0W frames0W
    ⟨by decide, ⟨4, by decide⟩, by decide, by decide⟩ (by decide) (by decide)
    _ _ _ _ rfl
  refine ⟨(h.2.2.1).mpr (by decide), ?_⟩
  have h2 := h.2.2.2 ((h.2.2.1).mpr (by decide)) _ _ _ rfl
  exact (h2.2.2 0 [255, 255, 255, 255] 0 (by decide) (by decide)).2.2

end Musictools
